import Mathlib

/-!
# Base tracker, light pairing, detection filter, back-projection and stability window

A verification development for `bomber/example/FindArmorV.h` and
`bomber/example/apriltags_demo.cpp`.

Modelling conventions.

* `cv::Point` has two `int` coordinates; they are modelled by `Int`.  Signed
  overflow is undefined in C++, so the arithmetic is meant in the range where
  `int` is exact.  The anchors stay in that range: `FindBase` keeps the
  difference `tmp2 - tmp1` unchanged in its one-candidate branch and one of the
  anchors is always the latest candidate, a pixel position of the frame.
* C++ integer division truncates toward zero: `Int.tdiv`.
* `float` and `double` values are modelled by exact rationals: rounding is
  left out.  The functions `sqrt`, `cos`, `sin` of `<cmath>` are a parameter
  (`Libm`) where their values are used, and are compared through exact
  squares where only integers go in (`caseOne`).
* The function-local `static` variables of `FindBase` and the globals of
  `apriltags_demo.cpp` are explicit states, passed in and returned.
* What OpenCV and the tag decoder compute (contours, rectangles, detections,
  the pose, the enclosing circle) is input of the model or, for the circle,
  the recorded argument of the call.
-/

namespace Bomber

/-! ## FindBase (FindArmorV.h, lines 145-196) -/

/-- A pixel position: the `cv::Point` of the source, two `int` coordinates. -/
structure Point where
  x : Int
  y : Int
deriving DecidableEq, Repr

/-- Componentwise sum, the `operator+` (and `+=`) of `cv::Point`. -/
instance : Add Point := ⟨fun a b => ⟨a.x + b.x, a.y + b.y⟩⟩

/-- Componentwise difference, the `operator-` of `cv::Point`. -/
instance : Sub Point := ⟨fun a b => ⟨a.x - b.x, a.y - b.y⟩⟩

/-- The argument of `sqrt` in lines 161-162 for the points `a` and `b`:
`(a.x - b.x) * (a.x - b.x) + (a.y - b.y) * (a.y - b.y)`, computed on `int`. -/
def distSq (a b : Point) : Int :=
  (a.x - b.x) * (a.x - b.x) + (a.y - b.y) * (a.y - b.y)

/-- The `static` variables of `FindBase` (lines 147-148); `flag` is the
LOCKED state of the tracker. -/
structure TrackerState where
  armorcenter : Point
  tmp1 : Point
  tmp2 : Point
  tmp : Point
  flag : Bool
deriving DecidableEq, Repr

/-- The initial values of the statics: all points `(0, 0)`, `flag = false`. -/
def TrackerState.initial : TrackerState :=
  { armorcenter := ⟨0, 0⟩, tmp1 := ⟨0, 0⟩, tmp2 := ⟨0, 0⟩, tmp := ⟨0, 0⟩, flag := false }

/-- What one call of `FindBase` leaves behind: the statics and the two
reference parameters `BaseFound` and `BaseCenter`. -/
structure FindBaseResult where
  state : TrackerState
  BaseFound : Bool
  BaseCenter : Point
deriving DecidableEq, Repr

/-- The `case 1` branch of the `switch` (lines 160-176).  `dis1` and `dis2` of
the source are `sqrt` of the non-negative integers `distSq tmp tmp1` and
`distSq tmp tmp2`; `sqrt` is strictly increasing on them and `sqrt 100 = 10`,
so `dis1 < dis2` is decided as `distSq tmp tmp1 < distSq tmp tmp2` and
`dis < 10` as `distSq .. < 100` (theorem `sqrt_compare` relates the two; the
same holds for the rounded `double` values, the arguments being `int`). -/
def caseOne (s : TrackerState) (a0 : Point) : TrackerState :=
  let s := { s with tmp := a0 }
  let dis1sq := distSq s.tmp s.tmp1
  let dis2sq := distSq s.tmp s.tmp2
  let s :=
    if dis1sq < dis2sq && dis1sq < 10 * 10 then
      let s := { s with tmp2 := s.tmp2 + (s.tmp - s.tmp1) }
      { s with tmp1 := s.tmp }
    else if dis2sq < 10 * 10 then
      let s := { s with tmp1 := s.tmp1 + (s.tmp - s.tmp2) }
      { s with tmp2 := s.tmp }
    else s
  { s with armorcenter := ⟨Int.tdiv (s.tmp1.x + s.tmp2.x) 2, Int.tdiv (s.tmp1.y + s.tmp2.y) 2⟩ }

/-- The `case 2` branch of the `switch` (lines 178-183). -/
def caseTwo (s : TrackerState) (a0 a1 : Point) : TrackerState :=
  let s := { s with tmp1 := a0 }
  let s := { s with tmp2 := a1 }
  { s with armorcenter := ⟨Int.tdiv (s.tmp1.x + s.tmp2.x) 2, Int.tdiv (s.tmp1.y + s.tmp2.y) 2⟩ }

/-- One call `FindBase(image, BaseFound, BaseCenter)`, lines 145-196.  `armors`
is the list `FindArmorV(image, armors)` filled in; `BaseCenter` is the value
the caller's variable holds on entry (it is written only when the base is
found). -/
def FindBase (s : TrackerState) (armors : List Point) (BaseCenter : Point) : FindBaseResult :=
  -- BaseFound = false;  if (armors.size() > 1 && !flag) flag = true;
  let s := if decide (armors.length > 1) && !s.flag then { s with flag := true } else s
  let r : TrackerState × Bool :=
    if s.flag then
      match armors with
      | [a0] => (caseOne s a0, true)
      | [a0, a1] => (caseTwo s a0 a1, true)
      | _ => ({ s with flag := false }, false)
    else (s, false)
  if r.2 then ⟨r.1, true, r.1.armorcenter⟩ else ⟨r.1, false, BaseCenter⟩

/-- The calls of `FindBase` over successive frames, each frame given by its
candidate list; the caller passes a fresh `BaseCenter(0, 0)` every frame
(apriltags_demo.cpp, line 303).  Returns the result of every call. -/
def runFrames (s : TrackerState) : List (List Point) → List FindBaseResult
  | [] => []
  | armors :: rest =>
    let r := FindBase s armors ⟨0, 0⟩
    r :: runFrames r.state rest

/-! ## FindArmorV (FindArmorV.h, lines 19-143)

The pixel work (threshold, erosion, `findContours`) is OpenCV's; the model
starts from what OpenCV returns for each contour.  `float` and `double` values
are modelled by exact rationals, so rounding is left out; the three functions
of `<cmath>` that the pairing loop calls are a parameter. -/

/-- The `cv::Point2f` of the source: two `float` coordinates. -/
structure Point2f where
  x : ℚ
  y : ℚ
deriving DecidableEq, Repr

/-- The `cv::Size2f` of the source. -/
structure Size2f where
  width : ℚ
  height : ℚ
deriving DecidableEq, Repr

/-- The `cv::RotatedRect` of the source: center, size and angle in degrees. -/
structure RotatedRect where
  center : Point2f
  size : Size2f
  angle : ℚ
deriving DecidableEq, Repr

/-- The functions `sqrt`, `cos` and `sin` of `<cmath>`, taken as a parameter,
with the three facts about them that are used: `sqrt` is exact on squares,
`cos 0 = 1` and `sin 0 = 0`. -/
structure Libm where
  sqrt : ℚ → ℚ
  cos : ℚ → ℚ
  sin : ℚ → ℚ
  sqrt_mul_self : ∀ x : ℚ, 0 ≤ x → sqrt (x * x) = x
  cos_zero : cos 0 = 1
  sin_zero : sin 0 = 0

/-- A rational square root: exact on the squares of rationals, the quotient of
the integer square roots of numerator and denominator elsewhere. -/
def ratSqrt (q : ℚ) : ℚ := (Nat.sqrt q.num.toNat : ℚ) / (Nat.sqrt q.den : ℚ)

/-- A `Libm` on which the model can be run: `ratSqrt`, and the Taylor
polynomials of degree 4 and 5 for `cos` and `sin`.  Its values are the exact
ones at the arguments of the facts of `Libm`; it shows that these facts can be
met, and the concrete examples below are evaluated at such arguments. -/
def refLibm : Libm where
  sqrt := ratSqrt
  cos := fun x => 1 - x ^ 2 / 2 + x ^ 4 / 24
  sin := fun x => x - x ^ 3 / 6 + x ^ 5 / 120
  sqrt_mul_self := by
    intro x hx
    unfold ratSqrt
    rw [Rat.mul_self_num, Rat.mul_self_den, Nat.sqrt_eq]
    have hn : 0 ≤ x.num := Rat.num_nonneg.mpr hx
    obtain ⟨n, hn'⟩ := Int.eq_ofNat_of_zero_le hn
    have h2 : (x.num * x.num).toNat = n * n := by
      rw [hn', ← Int.natCast_mul]; exact Int.toNat_natCast _
    rw [h2, Nat.sqrt_eq]
    have h3 := Rat.num_div_den x
    rw [hn', Int.cast_natCast] at h3
    exact h3
  cos_zero := by norm_num
  sin_zero := by norm_num

/-- The macro `PI` of line 9. -/
def PI : ℚ := 3.1415926535898

/-- The conversion `(int)` of a `double`: truncation toward zero. -/
def toInt (q : ℚ) : Int := if 0 ≤ q then ⌊q⌋ else ⌈q⌉

/-- The area gate of lines 54-56: `int area = contourArea(..)` and
`if (area > 100 || area < 20) continue;`.  The argument is the `double` that
`contourArea` returns; `true` means the contour goes on to the next gate. -/
def areaGate (contourArea : ℚ) : Bool :=
  let area : Int := toInt contourArea
  if area > 100 || area < 20 then false else true

/-- What OpenCV returns for one contour of the thresholded frame:
`contourArea`, `minAreaRect`, and channels 0 and 2 of the `mean` of the
15 x 15 window around the center of the rectangle. -/
structure Contour where
  area : ℚ
  rect : RotatedRect
  avg0 : ℚ
  avg2 : ℚ
deriving DecidableEq, Repr

/-- The body of the contour loop, lines 53-94, for a frame of `srcW` x `srcH`
pixels: `true` when the loop reaches `lights.push_back(rec)`. -/
def keepContour (srcW srcH : Int) (c : Contour) : Bool :=
  if !areaGate c.area then false else
  let rec_ := c.rect
  let border : ℚ := 10
  let recx := rec_.center.x
  let recy := rec_.center.y
  if recx < border || recx > srcW - border || recy < border || recy > srcH - border then false else
  let size := rec_.size
  let a := if size.height > size.width then size.height else size.width
  let b := if size.height < size.width then size.height else size.width
  if a / b > 5 || a / b < 1.3 then false else
  if !(c.avg0 - c.avg2 > 10) then false else
  true

/-- The body of the inner pairing loop, lines 105-139, for the lights `li`
and `lj` of the source's `lights.at(i)` and `lights.at(j)`: `none` when the
body ends in `continue`, `some p` when it reaches `armors.push_back(p)`. -/
def pairTest (m : Libm) (li lj : RotatedRect) : Option Point :=
  let pi := li.center
  let pj := lj.center
  let midx := (pi.x + pj.x) / 2
  let midy := (pi.y + pj.y) / 2
  let sizei := li.size
  let sizej := lj.size
  let ai := if sizei.height > sizei.width then sizei.height else sizei.width
  let distance := m.sqrt ((pi.x - pj.x) * (pi.x - pj.x) + (pi.y - pj.y) * (pi.y - pj.y))
  if distance < 3 * ai || distance > 4.5 * ai then none else
  let angeli := if sizei.width < sizei.height then li.angle + 90 else li.angle
  let angelj := if sizej.width < sizej.height then lj.angle + 90 else lj.angle
  let doti := |m.cos (angeli * PI / 180) * (pi.x - pj.x) + m.sin (angeli * PI / 180) * (pi.y - pj.y)| / distance
  let dotj := |m.cos (angelj * PI / 180) * (pi.x - pj.x) + m.sin (angelj * PI / 180) * (pi.y - pj.y)| / distance
  if doti > 0.3 || dotj > 0.3 then none else
  some ⟨toInt midx, toInt midy⟩

/-- The longer side of a rectangle, the expression of the source's `ai`
(line 111) and `a` (line 68). -/
def longSide (r : RotatedRect) : ℚ :=
  if r.size.height > r.size.width then r.size.height else r.size.width

/-- The two nested loops of lines 101-141 over `i < j`: the candidates pushed,
in the order of the loops. -/
def pairLoop (m : Libm) : List RotatedRect → List Point
  | [] => []
  | li :: rest => rest.filterMap (pairTest m li) ++ pairLoop m rest

/-- The pairing stage, lines 98-142: nothing is paired unless there are at
least two lights. -/
def pairing (m : Libm) (lights : List RotatedRect) : List Point :=
  if lights.length > 1 then pairLoop m lights else []

/-- Two lights with different longer sides (12 and 16), 40 px apart along
the y axis, both with angle 0 and the longer side along the x axis. -/
def lightShort : RotatedRect := { center := ⟨100, 100⟩, size := ⟨12, 4⟩, angle := 0 }

/-- The second light of the pair described at `lightShort`. -/
def lightLong : RotatedRect := { center := ⟨100, 140⟩, size := ⟨16, 5⟩, angle := 0 }

/-- A light with the size of `lightShort` at the place of `lightLong`. -/
def lightShortBelow : RotatedRect := { center := ⟨100, 140⟩, size := ⟨12, 4⟩, angle := 0 }

/-- Two lights of 10 x 30 (width 10, height 30, angle 0: the long side is
vertical) whose centers are 40 px apart along the x axis. -/
def barLeft : RotatedRect := { center := ⟨100, 100⟩, size := ⟨10, 30⟩, angle := 0 }

/-- The second light of the pair described at `barLeft`. -/
def barRight : RotatedRect := { center := ⟨140, 100⟩, size := ⟨10, 30⟩, angle := 0 }

/-- The function `FindArmorV` from the contours on: a frame that does not have
three channels gives no candidate; otherwise the contours that pass the gates
become the lights, and the lights are paired. -/
def FindArmorV (m : Libm) (channels : Nat) (srcW srcH : Int) (contours : List Contour) :
    List Point :=
  if channels ≠ 3 then [] else
  let lights := (contours.filter (keepContour srcW srcH)).map (fun c => c.rect)
  pairing m lights

/-! ## The detection filter of processImage (apriltags_demo.cpp, lines 184-204) -/

/-- The fields of `AprilTags::TagDetection` the loop reads or writes, and the
center `cxy` it prints. -/
structure TagDetection where
  id : Int
  hammingDistance : Int
  cxy : ℚ × ℚ
deriving DecidableEq, Repr

/-- How the filtering loop ends: it leaves the vector `detections`, or it
dereferences the iterator outside the vector (undefined behaviour), or the
model ran out of steps. -/
inductive LoopEnd where
  | finished (detections : List TagDetection)
  | outOfBounds
  | outOfFuel
deriving DecidableEq, Repr

/-- The value of `*itr` for an iterator at offset `itr` from `begin()`; `none`
when the offset is not that of an element. -/
def deref (detections : List TagDetection) (itr : Int) : Option TagDetection :=
  if 0 ≤ itr then detections.get? itr.toNat else none

/-- The loop of lines 185-204 from the iterator offset `itr` on, at most
`fuel` iterations.  `erase` removes the element at the offset and returns the
same offset; `--itr` and `++itr` move the offset by one. -/
def filterLoop : Nat → List TagDetection → Int → LoopEnd
  | 0, _, _ => LoopEnd.outOfFuel
  | fuel + 1, detections, itr =>
    -- itr != detections.end()
    if itr = detections.length then LoopEnd.finished detections else
    match deref detections itr with
    | none => LoopEnd.outOfBounds
    | some d =>
      -- if (itr->id == 10) itr->id = 7;
      let d := if d.id = 10 then { d with id := 7 } else d
      let detections := detections.set itr.toNat d
      -- if (itr->id > 7) { itr = detections.erase(itr); --itr; }
      let st : List TagDetection × Int :=
        if d.id > 7 then (detections.eraseIdx itr.toNat, itr - 1) else (detections, itr)
      -- cout << itr->id << itr->hammingDistance << itr->cxy
      match deref st.1 st.2 with
      | none => LoopEnd.outOfBounds
      | some e =>
        -- if (itr->hammingDistance > 0) { itr = detections.erase(itr); --itr; }
        let st : List TagDetection × Int :=
          if e.hammingDistance > 0 then (st.1.eraseIdx st.2.toNat, st.2 - 1) else st
        filterLoop fuel st.1 (st.2 + 1)

/-- The whole filtering loop, started at `detections.begin()`.  Every
iteration either erases an element or moves the iterator forward without
erasing, so `2 * size + 1` iterations are enough. -/
def selectBaseTags (detections : List TagDetection) : LoopEnd :=
  filterLoop (2 * detections.length + 1) detections 0

/-- The remapping of lines 187-190: the id 10 becomes 7. -/
def remapId (d : TagDetection) : TagDetection :=
  if d.id = 10 then { d with id := 7 } else d

/-- The filter the specification describes: remap id 10 to 7, then keep the
detections whose id is in the table `basetags` (0..7) and whose Hamming
distance is 0, in their order. -/
def specFilter (detections : List TagDetection) : List TagDetection :=
  (detections.map remapId).filter
    (fun d => decide (0 ≤ d.id ∧ d.id ≤ 7 ∧ d.hammingDistance = 0))

/-- What the two tests of the loop (lines 191 and 199) let through, on a
detection whose id has been remapped. -/
def loopFilter (detections : List TagDetection) : List TagDetection :=
  (detections.map remapId).filter (fun d => decide (¬ d.id > 7 ∧ ¬ d.hammingDistance > 0))

/-- Whether the loop, started at `begin()`, visits a detection that is
removed for its id while no detection before it has been kept: every
detection before it was removed for its Hamming distance. -/
def readsBeforeBegin : List TagDetection → Bool
  | [] => false
  | d :: rest =>
    if (remapId d).id > 7 then true
    else if d.hammingDistance > 0 then readsBeforeBegin rest
    else false

/-! ## The stability window of processImage (apriltags_demo.cpp, lines 336-364) -/

/-- The global `base_position_length` (line 52). -/
def base_position_length : Nat := 10

/-- The globals `base_position` and `base_position_counter` (lines 51, 53). -/
structure Window where
  base_position : List Point2f
  base_position_counter : Nat
deriving DecidableEq, Repr

/-- The window when the frame loop starts: `loop` pushes
`base_position_length` points `(0, 0)` (lines 403-406); the counter is 0. -/
def Window.initial : Window :=
  { base_position := List.replicate base_position_length ⟨0, 0⟩, base_position_counter := 0 }

/-- Lines 341-358 for the position `tmp`: the write at the counter, the
advance of the counter, and the guarded call of `cv::minEnclosingCircle`.
The second component is the point list passed to `minEnclosingCircle`, or
`none` when the call is skipped. -/
def insertPosition (w : Window) (tmp : Point2f) : Window × Option (List Point2f) :=
  let base_position := w.base_position.set w.base_position_counter tmp
  let counter := (w.base_position_counter + 1) % base_position_length
  let last := base_position.getD (base_position_length - 1) ⟨0, 0⟩
  let circle := if last.x > 0 && last.y > 0 then some base_position else none
  ({ base_position := base_position, base_position_counter := counter }, circle)

/-- The insertions of successive frames: the window after them and, for every
insertion, what was passed to `minEnclosingCircle` (`none`: skipped). -/
def runInsertions (w : Window) : List Point2f → Window × List (Option (List Point2f))
  | [] => (w, [])
  | tmp :: rest =>
    let r := insertPosition w tmp
    let rs := runInsertions r.1 rest
    (rs.1, r.2 :: rs.2)

/-! ## The back-projection of processImage (apriltags_demo.cpp, lines 305-334) -/

/-- The `Eigen::Vector3d` of the source. -/
structure Vector3d where
  x : ℚ
  y : ℚ
  z : ℚ
deriving DecidableEq, Repr

/-- The `Eigen::Matrix3d` of the source; `mij` is the coefficient of row `i`
and column `j`. -/
structure Matrix3d where
  m00 : ℚ
  m01 : ℚ
  m02 : ℚ
  m10 : ℚ
  m11 : ℚ
  m12 : ℚ
  m20 : ℚ
  m21 : ℚ
  m22 : ℚ
deriving DecidableEq, Repr

/-- The identity matrix. -/
def Matrix3d.identity : Matrix3d := ⟨1, 0, 0, 0, 1, 0, 0, 0, 1⟩

/-- The determinant, expanded along the first column as Eigen does for a
3 x 3 matrix. -/
def Matrix3d.det (a : Matrix3d) : ℚ :=
  (a.m11 * a.m22 - a.m12 * a.m21) * a.m00
    + (a.m02 * a.m21 - a.m01 * a.m22) * a.m10
    + (a.m01 * a.m12 - a.m02 * a.m11) * a.m20

/-- The method `inverse()` of a 3 x 3 matrix: Eigen multiplies the transposed
matrix of cofactors by the inverse of the determinant. -/
def Matrix3d.inverse (a : Matrix3d) : Matrix3d :=
  let invdet := 1 / a.det
  { m00 := (a.m11 * a.m22 - a.m12 * a.m21) * invdet
    m01 := (a.m02 * a.m21 - a.m01 * a.m22) * invdet
    m02 := (a.m01 * a.m12 - a.m02 * a.m11) * invdet
    m10 := (a.m12 * a.m20 - a.m10 * a.m22) * invdet
    m11 := (a.m00 * a.m22 - a.m02 * a.m20) * invdet
    m12 := (a.m02 * a.m10 - a.m00 * a.m12) * invdet
    m20 := (a.m10 * a.m21 - a.m11 * a.m20) * invdet
    m21 := (a.m01 * a.m20 - a.m00 * a.m21) * invdet
    m22 := (a.m00 * a.m11 - a.m01 * a.m10) * invdet }

/-- The method `transpose()`. -/
def Matrix3d.transpose (a : Matrix3d) : Matrix3d :=
  ⟨a.m00, a.m10, a.m20, a.m01, a.m11, a.m21, a.m02, a.m12, a.m22⟩

/-- The product of a matrix and a vector. -/
def Matrix3d.mulVec (a : Matrix3d) (b : Vector3d) : Vector3d :=
  ⟨a.m00 * b.x + a.m01 * b.y + a.m02 * b.z,
   a.m10 * b.x + a.m11 * b.y + a.m12 * b.z,
   a.m20 * b.x + a.m21 * b.y + a.m22 * b.z⟩

/-- The product of a vector and a scalar, `B * Zc`. -/
def Vector3d.scale (b : Vector3d) (c : ℚ) : Vector3d := ⟨b.x * c, b.y * c, b.z * c⟩

/-- The difference of two vectors. -/
def Vector3d.sub (a b : Vector3d) : Vector3d := ⟨a.x - b.x, a.y - b.y, a.z - b.z⟩

/-- The camera fields `m_fx`, `m_fy`, `m_px`, `m_py` of the class `Demo`. -/
structure Intrinsics where
  m_fx : ℚ
  m_fy : ℚ
  m_px : ℚ
  m_py : ℚ
deriving DecidableEq, Repr

/-- The values the constructor of `Demo` gives the camera fields
(lines 96-99). -/
def Intrinsics.ofDemo : Intrinsics :=
  { m_fx := 508.013, m_fy := 507.49, m_px := 322.632, m_py := 231.39 }

/-- Lines 313-328 from the filling of `B` on, for the pixel coordinates
`(u, v)` written into `B` and the depth `Zc`; `rotation` and `translation`
are the pose that `solvePnP` and `Rodrigues` gave.  The result is `base`. -/
def backProjectPixel (k : Intrinsics) (rotation : Matrix3d) (translation : Vector3d)
    (Zc u v : ℚ) : Vector3d :=
  let cameraMatrix : Matrix3d := ⟨k.m_fx, 0, k.m_px, 0, k.m_fy, k.m_py, 0, 0, 1⟩
  -- B << BaseCenter.x, BaseCenter.y, 1;
  let B : Vector3d := ⟨u, v, 1⟩
  -- B = B * Zc;
  let B := B.scale Zc
  -- B = cameraMatrix.inverse() * B;
  let B := cameraMatrix.inverse.mulVec B
  -- B = B - translation;
  let B := B.sub translation
  -- base = rotation.transpose() * B;
  rotation.transpose.mulVec B

/-- The back-projection of lines 307-328 as `processImage` runs it: the pixel
is the `cv::Point` `BaseCenter` that `FindBase` reported, and `Zc` is 2.0. -/
def backProject (k : Intrinsics) (rotation : Matrix3d) (translation : Vector3d)
    (BaseCenter : Point) : Vector3d :=
  backProjectPixel k rotation translation 2 BaseCenter.x BaseCenter.y

/-! # Theorems -/

/-! ### Lemmas on FindBase -/

theorem caseOne_flag (s : TrackerState) (a0 : Point) : (caseOne s a0).flag = s.flag := by
  unfold caseOne
  dsimp only
  split_ifs <;> rfl

/-- The lock after a call depends only on the lock before it and on the number
of candidates: two candidates lock, one candidate keeps the lock, any other
count unlocks. -/
theorem FindBase_flag (s : TrackerState) (armors : List Point) (bc : Point) :
    (FindBase s armors bc).state.flag
      = (decide (armors.length = 2) || (s.flag && decide (armors.length = 1))) := by
  rcases armors with _ | ⟨a0, _ | ⟨a1, _ | ⟨a2, t⟩⟩⟩ <;>
    cases hf : s.flag <;> simp [FindBase, hf, caseOne_flag, caseTwo]

theorem Point.add_def (a b : Point) : a + b = ⟨a.x + b.x, a.y + b.y⟩ := rfl

theorem Point.sub_def (a b : Point) : a - b = ⟨a.x - b.x, a.y - b.y⟩ := rfl

/-- The one-candidate branch moves both anchors by the same amount, or
neither: the difference `tmp2 - tmp1` is unchanged. -/
theorem caseOne_anchor_difference (s : TrackerState) (a0 : Point) :
    (caseOne s a0).tmp2 - (caseOne s a0).tmp1 = s.tmp2 - s.tmp1 := by
  unfold caseOne
  dsimp only
  split_ifs <;> simp only [Point.add_def, Point.sub_def, Point.mk.injEq] <;>
    constructor <;> ring

theorem distSq_nonneg (a b : Point) : 0 ≤ distSq a b :=
  add_nonneg (mul_self_nonneg _) (mul_self_nonneg _)

/-- On non-negative integers `sqrt` is strictly increasing and `sqrt u < 10`
holds exactly when `u < 100`: the comparisons of `caseOne` on the squares
are the comparisons of the source on the distances. -/
theorem sqrt_compare (a b c : Point) :
    (Real.sqrt (distSq a b) < Real.sqrt (distSq a c) ↔ distSq a b < distSq a c) ∧
    (Real.sqrt (distSq a b) < 10 ↔ distSq a b < 10 * 10) := by
  have hb : (0 : ℝ) ≤ (distSq a b : ℝ) := by
    exact_mod_cast distSq_nonneg a b
  constructor
  · rw [Real.sqrt_lt_sqrt_iff hb]
    exact_mod_cast Iff.rfl
  · rw [Real.sqrt_lt' (by norm_num)]
    constructor
    · intro h
      have : (distSq a b : ℝ) < ((10 * 10 : Int) : ℝ) := by push_cast; linarith
      exact_mod_cast this
    · intro h
      have : (distSq a b : ℝ) < ((10 * 10 : Int) : ℝ) := by exact_mod_cast h
      push_cast at this; linarith

/-! ### The tracker claims -/

/-- C1: from the initial state (unlocked, anchors at the origin), six frames
with 2, 2, 1, 1, 0, 2 candidates, at any positions, leave the tracker locked
after frames 1, 2, 3 and 4, unlocked after frame 5 and locked after frame 6. -/
theorem C1_scripted_counts (a1 a2 b1 b2 c d e1 e2 : Point) :
    (runFrames TrackerState.initial [[a1, a2], [b1, b2], [c], [d], [], [e1, e2]]).map
        (fun r => r.state.flag)
      = [true, true, true, true, false, true] := by
  simp [runFrames, FindBase_flag, TrackerState.initial]

/-- C2: in a locked state, a frame with the single candidate `tmp`, at the
distances `dis1` from `tmp1` and `dis2` from `tmp2`: if `dis1 < dis2` and
`dis1 < 10`, then `tmp1` becomes `tmp` and `tmp2` moves by `tmp - tmp1`;
otherwise, if `dis2 < 10`, `tmp2` becomes `tmp` and `tmp1` moves by
`tmp - tmp2`; otherwise both anchors are unchanged.  In every case the
tracker stays locked and `BaseFound` is true. -/
theorem C2_single_candidate (s : TrackerState) (tmp bc : Point) (hlock : s.flag = true) :
    (FindBase s [tmp] bc).state.flag = true ∧ (FindBase s [tmp] bc).BaseFound = true ∧
    ((Real.sqrt (distSq tmp s.tmp1) < Real.sqrt (distSq tmp s.tmp2) ∧
        Real.sqrt (distSq tmp s.tmp1) < 10) →
      (FindBase s [tmp] bc).state.tmp1 = tmp ∧
      (FindBase s [tmp] bc).state.tmp2 = s.tmp2 + (tmp - s.tmp1)) ∧
    (¬ (Real.sqrt (distSq tmp s.tmp1) < Real.sqrt (distSq tmp s.tmp2) ∧
        Real.sqrt (distSq tmp s.tmp1) < 10) →
      Real.sqrt (distSq tmp s.tmp2) < 10 →
      (FindBase s [tmp] bc).state.tmp2 = tmp ∧
      (FindBase s [tmp] bc).state.tmp1 = s.tmp1 + (tmp - s.tmp2)) ∧
    (¬ (Real.sqrt (distSq tmp s.tmp1) < Real.sqrt (distSq tmp s.tmp2) ∧
        Real.sqrt (distSq tmp s.tmp1) < 10) →
      ¬ Real.sqrt (distSq tmp s.tmp2) < 10 →
      (FindBase s [tmp] bc).state.tmp1 = s.tmp1 ∧
      (FindBase s [tmp] bc).state.tmp2 = s.tmp2) := by
  have h1 := sqrt_compare tmp s.tmp1 s.tmp2
  have h2 := sqrt_compare tmp s.tmp2 s.tmp1
  rw [h1.1, h1.2, h2.2]
  have hr : (FindBase s [tmp] bc).state = caseOne s tmp ∧
      (FindBase s [tmp] bc).BaseFound = true := by
    simp [FindBase, hlock]
  refine ⟨?_, hr.2, ?_, ?_, ?_⟩
  · rw [hr.1, caseOne_flag, hlock]
  · intro h
    rw [hr.1]
    unfold caseOne
    dsimp only
    split_ifs with g1 g2 <;>
      first
        | exact ⟨rfl, rfl⟩
        | (exfalso; simp only [Bool.and_eq_true, decide_eq_true_eq] at g1; omega)
  · intro h h'
    rw [hr.1]
    unfold caseOne
    dsimp only
    split_ifs with g1 <;>
      first
        | (exfalso; simp only [Bool.and_eq_true, decide_eq_true_eq] at g1; omega)
        | exact ⟨rfl, rfl⟩
  · intro h h'
    rw [hr.1]
    unfold caseOne
    dsimp only
    split_ifs with g1 <;>
      first
        | (exfalso; simp only [Bool.and_eq_true, decide_eq_true_eq] at g1; omega)
        | (exfalso; omega)
        | exact ⟨rfl, rfl⟩

/-- C2, at a concrete input: locked, anchors `(0, 0)` and `(100, 0)`, the
single candidate `(3, 4)`. -/
theorem C2_single_candidate_witness :
    (FindBase ⟨⟨50, 0⟩, ⟨0, 0⟩, ⟨100, 0⟩, ⟨0, 0⟩, true⟩ [⟨3, 4⟩] ⟨0, 0⟩).state.tmp1 = ⟨3, 4⟩ ∧
    (FindBase ⟨⟨50, 0⟩, ⟨0, 0⟩, ⟨100, 0⟩, ⟨0, 0⟩, true⟩ [⟨3, 4⟩] ⟨0, 0⟩).state.tmp2 = ⟨103, 4⟩ :=
  (C2_single_candidate ⟨⟨50, 0⟩, ⟨0, 0⟩, ⟨100, 0⟩, ⟨0, 0⟩, true⟩ ⟨3, 4⟩ ⟨0, 0⟩ rfl).2.2.1
    ⟨Real.sqrt_lt_sqrt (by norm_num [distSq]) (by norm_num [distSq]),
      (Real.sqrt_lt' (by norm_num)).2 (by norm_num [distSq])⟩

/-- C3, as stated, fails: from the initial, unlocked state a frame with three
candidates leaves the tracker unlocked. -/
theorem C3_three_candidates_stay_unlocked :
    TrackerState.initial.flag = false ∧
    2 ≤ [(⟨100, 100⟩ : Point), ⟨140, 100⟩, ⟨180, 100⟩].length ∧
    (FindBase TrackerState.initial [⟨100, 100⟩, ⟨140, 100⟩, ⟨180, 100⟩] ⟨0, 0⟩).state.flag
      = false := by
  decide

/-- C3, amended: from an unlocked state, a frame leaves the tracker locked
exactly when it has exactly two candidates; with three or more candidates the
tracker is unlocked after the call. -/
theorem C3_lock_iff_two_candidates (s : TrackerState) (armors : List Point) (bc : Point)
    (hs : s.flag = false) :
    ((FindBase s armors bc).state.flag = true ↔ armors.length = 2) ∧
    (3 ≤ armors.length → (FindBase s armors bc).state.flag = false) := by
  rw [FindBase_flag, hs]
  constructor
  · simp
  · intro h3
    have : armors.length ≠ 2 := by omega
    simp [this]

/-- C3, amended, at concrete inputs: two candidates lock the initial state. -/
theorem C3_lock_iff_two_candidates_witness :
    (FindBase TrackerState.initial [⟨100, 100⟩, ⟨140, 100⟩] ⟨0, 0⟩).state.flag = true :=
  (C3_lock_iff_two_candidates TrackerState.initial [⟨100, 100⟩, ⟨140, 100⟩] ⟨0, 0⟩
    rfl).1.2 rfl

/-- C4: in any state, locked or not, a frame with exactly the two candidates
`c0`, `c1` sets `tmp1 = c0` and `tmp2 = c1`, leaves the tracker locked, sets
`BaseFound`, and reports as `BaseCenter` the midpoint
`((c0.x + c1.x) / 2, (c0.y + c1.y) / 2)`, the division being that of `int`. -/
theorem C4_two_candidates (s : TrackerState) (c0 c1 bc : Point) :
    (FindBase s [c0, c1] bc).state.tmp1 = c0 ∧
    (FindBase s [c0, c1] bc).state.tmp2 = c1 ∧
    (FindBase s [c0, c1] bc).state.flag = true ∧
    (FindBase s [c0, c1] bc).BaseFound = true ∧
    (FindBase s [c0, c1] bc).BaseCenter
      = ⟨Int.tdiv (c0.x + c1.x) 2, Int.tdiv (c0.y + c1.y) 2⟩ := by
  cases hf : s.flag <;> simp [FindBase, hf, caseTwo]

/-! ### The pairing claims -/

/-- The pairing test does not depend on the order of two lights whose longer
sides are equal. -/
theorem pairTest_symm (m : Libm) (li lj : RotatedRect) (h : longSide li = longSide lj) :
    pairTest m li lj = pairTest m lj li := by
  unfold longSide at h
  have hd : (li.center.x - lj.center.x) * (li.center.x - lj.center.x)
        + (li.center.y - lj.center.y) * (li.center.y - lj.center.y)
      = (lj.center.x - li.center.x) * (lj.center.x - li.center.x)
        + (lj.center.y - li.center.y) * (lj.center.y - li.center.y) := by ring
  have ha : ∀ u v : ℚ, |u * (li.center.x - lj.center.x) + v * (li.center.y - lj.center.y)|
      = |u * (lj.center.x - li.center.x) + v * (lj.center.y - li.center.y)| := by
    intro u v
    rw [← abs_neg]
    congr 1
    ring
  unfold pairTest
  simp only [hd, ha, h, add_comm li.center.x lj.center.x, add_comm li.center.y lj.center.y]
  congr 2
  rw [Bool.or_comm]

/-- An accepted pair gives the mean of the two centers, converted to `int`. -/
theorem pairTest_midpoint (m : Libm) (li lj : RotatedRect) (p : Point)
    (h : pairTest m li lj = some p) :
    p = ⟨toInt ((li.center.x + lj.center.x) / 2), toInt ((li.center.y + lj.center.y) / 2)⟩ := by
  unfold pairTest at h
  dsimp only at h
  split_ifs at h <;> exact (Option.some.inj h).symm

/-- A pair whose centers are closer than three times the longer side of the
first light is rejected. -/
theorem pairTest_too_close (m : Libm) (li lj : RotatedRect) (d : ℚ) (hd0 : 0 ≤ d)
    (hd : (li.center.x - lj.center.x) * (li.center.x - lj.center.x)
        + (li.center.y - lj.center.y) * (li.center.y - lj.center.y) = d * d)
    (hclose : d < 3 * longSide li) :
    pairTest m li lj = none := by
  unfold longSide at hclose
  unfold pairTest
  dsimp only
  rw [hd, m.sqrt_mul_self d hd0, if_pos]
  simp only [Bool.or_eq_true, decide_eq_true_eq]
  exact Or.inl hclose

/-- With any `Libm`, `lightShort` paired with `lightLong` is accepted and
`lightLong` paired with `lightShort` is rejected. -/
theorem pairTest_order_matters (m : Libm) :
    pairTest m lightShort lightLong = some ⟨100, 120⟩ ∧
    pairTest m lightLong lightShort = none := by
  constructor
  · have hs : m.sqrt ((100 - 100) * (100 - 100) + (100 - 140) * (100 - 140)) = 40 := by
      have h := m.sqrt_mul_self 40 (by norm_num)
      norm_num at h ⊢
      exact h
    unfold pairTest lightShort lightLong
    dsimp only
    rw [hs]
    norm_num [m.cos_zero, m.sin_zero, toInt]
  · apply pairTest_too_close m lightLong lightShort 40 (by norm_num)
    · norm_num [lightShort, lightLong]
    · norm_num [longSide, lightLong]

/-- C5, as stated, fails: `lightShort` and `lightLong` both pass the gates of
the contour loop (in a 640 x 480 frame, with areas 40 and 70 and a color
difference of 20); the pairing test accepts them in the order
(`lightShort`, `lightLong`) and rejects them in the other order. -/
theorem C5_order_changes_decision :
    keepContour 640 480 ⟨40, lightShort, 30, 10⟩ = true ∧
    keepContour 640 480 ⟨70, lightLong, 30, 10⟩ = true ∧
    pairTest refLibm lightShort lightLong = some ⟨100, 120⟩ ∧
    pairTest refLibm lightLong lightShort = none := by
  refine ⟨?_, ?_, pairTest_order_matters refLibm⟩
  · norm_num [keepContour, areaGate, toInt, lightShort]
  · norm_num [keepContour, areaGate, toInt, lightLong]

/-- C5, amended: for two lights whose rectangles have the same longer side,
the pairing test gives the same decision and, when it accepts, the same
midpoint in both orders; for any two lights, if both orders are accepted the
midpoints are equal. -/
theorem C5_symmetric_for_equal_long_sides (m : Libm) (li lj : RotatedRect) :
    (longSide li = longSide lj → pairTest m li lj = pairTest m lj li) ∧
    (∀ p q : Point, pairTest m li lj = some p → pairTest m lj li = some q → p = q) := by
  refine ⟨pairTest_symm m li lj, ?_⟩
  intro p q hp hq
  rw [pairTest_midpoint m li lj p hp, pairTest_midpoint m lj li q hq,
    add_comm li.center.x, add_comm li.center.y]

/-- C5, amended, at a concrete input: two lights with longer side 12. -/
theorem C5_symmetric_for_equal_long_sides_witness :
    pairTest refLibm lightShort lightShortBelow = pairTest refLibm lightShortBelow lightShort :=
  (C5_symmetric_for_equal_long_sides refLibm lightShort lightShortBelow).1
    (by norm_num [longSide, lightShort, lightShortBelow])

/-- C6, as stated, fails: for `barLeft` and `barRight`, both 10 x 30 with the
long side vertical and centers 40 px apart, the pairing stage outputs no
candidate. -/
theorem C6_bars_40_apart_give_no_candidate :
    pairing refLibm [barLeft, barRight] = [] ∧
    (pairing refLibm [barLeft, barRight]).length ≠ 1 := by
  have h : pairTest refLibm barLeft barRight = none := by
    apply pairTest_too_close refLibm barLeft barRight 40 (by norm_num)
    · norm_num [barLeft, barRight]
    · norm_num [longSide, barLeft]
  simp [pairing, pairLoop, h]

/-- C6, amended: two lights whose rectangles are each 10 x 30 (stored as
10 x 30 or as 30 x 10, at any angle) and whose centers are 40 px apart give no
candidate, in whichever order they stand in `lights`: 40 is below
3 x 30 = 90, the lower bound of the distance gate. -/
theorem C6_pair_rejected (m : Libm) (li lj : RotatedRect)
    (hi : li.size = ⟨10, 30⟩ ∨ li.size = ⟨30, 10⟩)
    (hj : lj.size = ⟨10, 30⟩ ∨ lj.size = ⟨30, 10⟩)
    (hd : (li.center.x - lj.center.x) * (li.center.x - lj.center.x)
        + (li.center.y - lj.center.y) * (li.center.y - lj.center.y) = 40 * 40) :
    pairing m [li, lj] = [] ∧ pairing m [lj, li] = [] := by
  have hli : longSide li = 30 := by
    rcases hi with h | h <;> norm_num [longSide, h]
  have hlj : longSide lj = 30 := by
    rcases hj with h | h <;> norm_num [longSide, h]
  have h1 : pairTest m li lj = none :=
    pairTest_too_close m li lj 40 (by norm_num) hd (by rw [hli]; norm_num)
  have h2 : pairTest m lj li = none :=
    pairTest_too_close m lj li 40 (by norm_num) (by rw [← hd]; ring) (by rw [hlj]; norm_num)
  simp [pairing, pairLoop, h1, h2]

/-- C6, amended, at the concrete input `barLeft`, `barRight`. -/
theorem C6_pair_rejected_witness :
    pairing refLibm [barLeft, barRight] = [] ∧ pairing refLibm [barRight, barLeft] = [] :=
  C6_pair_rejected refLibm barLeft barRight (Or.inl rfl) (Or.inl rfl)
    (by norm_num [barLeft, barRight])

/-! ### The area gate -/

/-- C7, as stated, fails: a contour whose area is exactly 20, or exactly 100,
passes the area gate. -/
theorem C7_area_20_and_100_accepted : areaGate 20 = true ∧ areaGate 100 = true := by
  decide

/-- C7, amended: the area gate accepts a contour exactly when its area,
converted to `int`, satisfies `20 ≤ area ≤ 100`, that is, when the area `a`
that `contourArea` returns satisfies `20 ≤ a < 101`. -/
theorem C7_area_gate_inclusive (a : ℚ) :
    (areaGate a = true ↔ (20 ≤ toInt a ∧ toInt a ≤ 100)) ∧
    (areaGate a = true ↔ (20 ≤ a ∧ a < 101)) := by
  have hgate : areaGate a = true ↔ (20 ≤ toInt a ∧ toInt a ≤ 100) := by
    unfold areaGate
    simp
    omega
  refine ⟨hgate, ?_⟩
  rw [hgate]
  unfold toInt
  by_cases h : 0 ≤ a
  · have h1 : (20 : Int) ≤ ⌊a⌋ ↔ 20 ≤ a := by
      rw [Int.le_floor]; norm_num
    have h2 : ⌊a⌋ < (101 : Int) ↔ a < 101 := by
      rw [Int.floor_lt]; norm_num
    simp only [h, if_true]
    rw [← h1, ← h2]
    omega
  · have h3 : ⌈a⌉ ≤ 0 := by
      rw [Int.ceil_le]; push_cast; linarith
    simp only [h, if_false]
    constructor
    · intro h4; omega
    · intro h4; linarith

/-! ### The detection filter -/

theorem deref_at_length (pre : List TagDetection) (d : TagDetection) (rest : List TagDetection) :
    deref (pre ++ d :: rest) pre.length = some d := by
  simp [deref, List.getElem_append_right]

theorem deref_before (pre : List TagDetection) (e : TagDetection) (rest : List TagDetection) :
    deref (pre ++ e :: rest) ((pre.length : Int) + 1 - 1) = some e := by
  simp [deref, List.getElem_append_right]

/-- Once the iterator stands behind a detection `e` that was kept, the loop
runs to its end and leaves, of the detections `rest` still to visit, those that
pass both tests of the loop. -/
theorem filterLoop_after_kept (rest : List TagDetection) :
    ∀ (pre : List TagDetection) (e : TagDetection) (fuel : Nat),
      ¬ e.hammingDistance > 0 → 2 * rest.length + 1 ≤ fuel →
      filterLoop fuel (pre ++ e :: rest) ((pre.length : Int) + 1)
        = LoopEnd.finished (pre ++ e :: (rest.map remapId).filter
            (fun d => decide (¬ d.id > 7 ∧ ¬ d.hammingDistance > 0))) := by
  induction rest with
  | nil =>
    intro pre e fuel he hf
    obtain ⟨f, rfl⟩ : ∃ f, fuel = f + 1 := ⟨fuel - 1, by omega⟩
    simp [filterLoop]
  | cons d rest ih =>
    intro pre e fuel he hf
    obtain ⟨f, rfl⟩ : ∃ f, fuel = f + 1 := ⟨fuel - 1, by simp at hf; omega⟩
    have hf2 : 2 * rest.length + 1 ≤ f := by simp at hf; omega
    have hv : pre ++ e :: d :: rest = (pre ++ [e]) ++ d :: rest := by simp
    have hlen : ((pre.length : Int) + 1) = ((pre ++ [e]).length : Int) := by simp
    have hne : ¬ (((pre ++ [e]).length : Int) = (((pre ++ [e]) ++ d :: rest).length : Nat)) := by
      simp; omega
    have hset : ∀ x : TagDetection,
        ((pre ++ [e]) ++ d :: rest).set (((pre ++ [e]).length : Int)).toNat x
          = (pre ++ [e]) ++ x :: rest := by
      intro x; simp
    have herase : ∀ x : TagDetection,
        ((pre ++ [e]) ++ x :: rest).eraseIdx (((pre ++ [e]).length : Int)).toNat
          = pre ++ e :: rest := by
      intro x; simp [List.eraseIdx_append_of_length_le]
    have hback : (((pre ++ [e]).length : Int) - 1) = (pre.length : Int) + 1 - 1 := by simp
    have hfilter : (List.map remapId (d :: rest)).filter
          (fun d => decide (¬ d.id > 7 ∧ ¬ d.hammingDistance > 0))
        = if ¬ (remapId d).id > 7 ∧ ¬ (remapId d).hammingDistance > 0
          then remapId d :: (List.map remapId rest).filter
            (fun d => decide (¬ d.id > 7 ∧ ¬ d.hammingDistance > 0))
          else (List.map remapId rest).filter
            (fun d => decide (¬ d.id > 7 ∧ ¬ d.hammingDistance > 0)) := by
      rw [List.map_cons, List.filter_cons]
      simp only [decide_eq_true_eq]
    unfold filterLoop
    rw [hv, hlen, if_neg hne, deref_at_length]
    dsimp only
    have hremap : (if d.id = 10 then
          ({ id := 7, hammingDistance := d.hammingDistance, cxy := d.cxy } : TagDetection)
        else d) = remapId d := rfl
    simp only [hremap]
    rw [← hv, hfilter]
    by_cases hid : (remapId d).id > 7
    · simp only [hid, if_true, hv, hset, herase, hback, deref_before, not_true_eq_false,
        false_and, if_false]
      rw [if_neg he]
      simpa using ih pre e f he hf2
    · simp only [hid, if_false, hv, hset, deref_at_length, not_false_eq_true, true_and]
      by_cases hh : (remapId d).hammingDistance > 0
      · simp only [hh, if_true, herase, hback, not_true_eq_false, if_false]
        simpa using ih pre e f he hf2
      · simp only [hh, if_false, not_false_eq_true, if_true]
        have := ih (pre ++ [e]) (remapId d) f hh hf2
        simpa using this

/-- The loop started at `begin()`: it reads before the start of the vector
when `readsBeforeBegin` holds, and otherwise ends and leaves `loopFilter`. -/
theorem filterLoop_from_begin (l : List TagDetection) :
    ∀ fuel : Nat, 2 * l.length + 1 ≤ fuel →
      filterLoop fuel l 0
        = if readsBeforeBegin l then LoopEnd.outOfBounds else LoopEnd.finished (loopFilter l) := by
  induction l with
  | nil =>
    intro fuel hf
    obtain ⟨f, rfl⟩ : ∃ f, fuel = f + 1 := ⟨fuel - 1, by omega⟩
    simp [filterLoop, readsBeforeBegin, loopFilter]
  | cons d rest ih =>
    intro fuel hf
    obtain ⟨f, rfl⟩ : ∃ f, fuel = f + 1 := ⟨fuel - 1, by simp at hf; omega⟩
    have hf2 : 2 * rest.length + 1 ≤ f := by simp at hf; omega
    have hne : ¬ ((0 : Int) = ((d :: rest).length : Nat)) := by simp; omega
    have hremap : (if d.id = 10 then
          ({ id := 7, hammingDistance := d.hammingDistance, cxy := d.cxy } : TagDetection)
        else d) = remapId d := rfl
    have hham : (remapId d).hammingDistance = d.hammingDistance := by
      unfold remapId; split_ifs <;> rfl
    have hd0 : deref (d :: rest) 0 = some d := by simp [deref]
    have hd1 : ∀ x : TagDetection, deref (x :: rest) 0 = some x := by intro x; simp [deref]
    have hd2 : deref rest (0 - 1) = none := by simp [deref]
    unfold filterLoop
    rw [if_neg hne, hd0]
    dsimp only
    simp only [hremap, Int.toNat_zero, List.set_cons_zero, List.eraseIdx_cons_zero]
    unfold readsBeforeBegin loopFilter
    rw [List.map_cons, List.filter_cons]
    simp only [decide_eq_true_eq, hham]
    by_cases hid : (remapId d).id > 7
    · simp only [hid, if_true, hd2]
    · simp only [hid, if_false, hd1, not_false_eq_true, true_and]
      by_cases hh : d.hammingDistance > 0
      · simp only [hh, if_true, not_true_eq_false, if_false, List.eraseIdx_cons_zero]
        have := ih f hf2
        simpa [loopFilter, hham, hh] using this
      · simp only [hh, if_false, not_false_eq_true, if_true]
        have := filterLoop_after_kept rest [] (remapId d) f (by rw [hham]; exact hh) hf2
        simpa [hham, hh] using this

/-- The loop of lines 185-204 as a whole. -/
theorem selectBaseTags_eq (l : List TagDetection) :
    selectBaseTags l
      = if readsBeforeBegin l then LoopEnd.outOfBounds else LoopEnd.finished (loopFilter l) :=
  filterLoop_from_begin l _ (le_refl _)

/-- On detections with non-negative id and Hamming distance, what the tests
of the loop let through is the filter of the specification. -/
theorem loopFilter_eq_specFilter (l : List TagDetection)
    (h : ∀ e ∈ l, 0 ≤ e.id ∧ 0 ≤ e.hammingDistance) : loopFilter l = specFilter l := by
  unfold loopFilter specFilter
  apply List.filter_congr
  intro x hx
  obtain ⟨e, he, rfl⟩ := List.mem_map.mp hx
  have h0 := h e he
  have hid : 0 ≤ (remapId e).id := by
    unfold remapId; split_ifs <;> simp [h0.1]
  have hham : (remapId e).hammingDistance = e.hammingDistance := by
    unfold remapId; split_ifs <;> rfl
  simp only [decide_eq_decide, hham]
  constructor
  · intro hk; exact ⟨hid, by omega, by omega⟩
  · intro hk; exact ⟨by omega, by omega⟩

/-- C8: the loop does not leave the filtered list when the first detection
is removed for its id.  For the detections with ids 8 and 3, both with Hamming
distance 0, the filter of the specification leaves the second one; the loop
erases the first, steps the iterator to before `begin()` and dereferences it
there. -/
theorem C8_first_removed_reads_out_of_bounds :
    selectBaseTags [⟨8, 0, (320, 240)⟩, ⟨3, 0, (100, 100)⟩] = LoopEnd.outOfBounds ∧
    specFilter [⟨8, 0, (320, 240)⟩, ⟨3, 0, (100, 100)⟩] = [⟨3, 0, (100, 100)⟩] := by
  decide

/-! ### The stability window -/

theorem runInsertions_append (w : Window) (l l2 : List Point2f) :
    runInsertions w (l ++ l2)
      = ((runInsertions (runInsertions w l).1 l2).1,
          (runInsertions w l).2 ++ (runInsertions (runInsertions w l).1 l2).2) := by
  induction l generalizing w with
  | nil => simp [runInsertions]
  | cons a t ih => simp [runInsertions, ih]

/-- The window after the insertions `l`, started from `Window.initial`: the
counter is the number of insertions modulo the length, the buffer keeps its
length, and slot `i` holds the latest insertion written to it, or `(0, 0)`
when there has been none. -/
theorem window_after (l : List Point2f) :
    (runInsertions Window.initial l).1.base_position_counter
        = l.length % base_position_length ∧
    (runInsertions Window.initial l).1.base_position.length = base_position_length ∧
    ∀ i, i < base_position_length →
      (runInsertions Window.initial l).1.base_position.getD i ⟨0, 0⟩
        = if l.length ≤ i then ⟨0, 0⟩
          else l.getD (i + base_position_length * ((l.length - 1 - i) / base_position_length))
            ⟨0, 0⟩ := by
  induction l using List.reverseRecOn with
  | nil =>
    refine ⟨rfl, rfl, ?_⟩
    intro i hi
    simp [runInsertions, Window.initial, List.getD_eq_getElem?_getD, List.getElem?_replicate, hi]
  | append_singleton l p ih =>
    obtain ⟨hc, hlen, hslot⟩ := ih
    rw [runInsertions_append]
    simp only [runInsertions, insertPosition, hc, List.length_append, List.length_singleton,
      List.length_set, hlen]
    have hN : base_position_length = 10 := rfl
    refine ⟨by rw [hN]; omega, trivial, ?_⟩
    intro i hi
    by_cases hik : i = l.length % base_position_length
    · subst hik
      rw [List.getD_eq_getElem?_getD, List.getElem?_set_self (by rw [hlen]; exact hi)]
      have h1 : ¬ (l.length + 1 ≤ l.length % base_position_length) := by
        rw [hN]; omega
      have h2 : l.length % base_position_length
          + base_position_length
            * ((l.length + 1 - 1 - l.length % base_position_length) / base_position_length)
          = l.length := by
        rw [hN]; omega
      rw [if_neg h1, h2]
      simp [List.getD_eq_getElem?_getD]
    · rw [List.getD_eq_getElem?_getD, List.getElem?_set_ne (Ne.symm hik),
        ← List.getD_eq_getElem?_getD, hslot i hi]
      by_cases hk : l.length ≤ i
      · have h1 : l.length + 1 ≤ i := by
          rw [hN] at hik hi; omega
        rw [if_pos hk, if_pos h1]
      · have h1 : ¬ (l.length + 1 ≤ i) := by omega
        have h2 : (l.length + 1 - 1 - i) / base_position_length
            = (l.length - 1 - i) / base_position_length := by
          rw [hN] at hik hi ⊢; omega
        have h3 : i + base_position_length * ((l.length - 1 - i) / base_position_length)
            < l.length := by
          rw [hN] at hik hi ⊢; omega
        rw [if_neg hk, if_neg h1, h2, List.getD_eq_getElem?_getD, List.getD_eq_getElem?_getD,
          List.getElem?_append_left h3]

/-- The guard of line 350 at the insertion of `p` after the insertions `l`:
the slot `base_position_length - 1` that it reads holds `(0, 0)` until it is
written, and then the latest insertion whose number is a multiple of the
length. -/
theorem circle_of_insert (l : List Point2f) (p : Point2f) :
    (insertPosition (runInsertions Window.initial l).1 p).1
        = (runInsertions Window.initial (l ++ [p])).1 ∧
    (insertPosition (runInsertions Window.initial l).1 p).2
      = if 0 < ((runInsertions Window.initial (l ++ [p])).1.base_position.getD
              (base_position_length - 1) ⟨0, 0⟩).x ∧
            0 < ((runInsertions Window.initial (l ++ [p])).1.base_position.getD
              (base_position_length - 1) ⟨0, 0⟩).y
        then some (runInsertions Window.initial (l ++ [p])).1.base_position
        else none := by
  rw [runInsertions_append]
  simp [runInsertions, insertPosition]

/-- C9: while fewer than `base_position_length` positions have been inserted
since the start, whatever their values, the call of `minEnclosingCircle` is
skipped at every insertion. -/
theorem C9_circle_skipped_before_full (l : List Point2f)
    (h : l.length < base_position_length) :
    (runInsertions Window.initial l).2 = List.replicate l.length none := by
  induction l using List.reverseRecOn with
  | nil => simp [runInsertions]
  | append_singleton l p ih =>
    have hN : base_position_length = 10 := rfl
    have hl : l.length < base_position_length := by
      rw [List.length_append, List.length_singleton] at h; omega
    have hslot := (window_after (l ++ [p])).2.2 (base_position_length - 1)
      (by rw [hN]; omega)
    have hle : (l ++ [p]).length ≤ base_position_length - 1 := by
      rw [hN] at h ⊢; omega
    rw [if_pos hle] at hslot
    have hskip : (insertPosition (runInsertions Window.initial l).1 p).2 = none := by
      rw [(circle_of_insert l p).2, hslot]
      simp
    rw [runInsertions_append, ih hl]
    simp only [runInsertions, hskip, List.length_append, List.length_singleton,
      List.replicate_succ']

/-- C9, at a concrete input: nine insertions of `(1, 2)`. -/
theorem C9_circle_skipped_before_full_witness :
    (runInsertions Window.initial (List.replicate 9 ⟨1, 2⟩)).2 = List.replicate 9 none :=
  C9_circle_skipped_before_full (List.replicate 9 ⟨1, 2⟩) (by decide)

/-- C10, as stated, fails: after ten insertions of the position `(-5, 20)` the
call of `minEnclosingCircle` has been skipped at every insertion, the tenth
included. -/
theorem C10_tenth_insertion_skipped :
    (runInsertions Window.initial (List.replicate 10 ⟨-5, 20⟩)).2 = List.replicate 10 none := by
  decide

/-- C10, amended: at the insertion of `p` after the insertions `l`, when this
is at least the `base_position_length`-th insertion, `minEnclosingCircle` is
called exactly when the latest position inserted at an insertion whose number
is a multiple of `base_position_length` (the content of the last slot) has
both coordinates strictly positive; it is then called on the buffer, which
holds `base_position_length` points.  In particular it is called when all
inserted positions have strictly positive coordinates. -/
theorem C10_circle_iff_last_slot_positive (l : List Point2f) (p : Point2f)
    (hfull : base_position_length ≤ l.length + 1) :
    (insertPosition (runInsertions Window.initial l).1 p).2
      = (if 0 < ((l ++ [p]).getD
                (base_position_length * ((l.length + 1) / base_position_length) - 1) ⟨0, 0⟩).x ∧
            0 < ((l ++ [p]).getD
                (base_position_length * ((l.length + 1) / base_position_length) - 1) ⟨0, 0⟩).y
        then some (insertPosition (runInsertions Window.initial l).1 p).1.base_position
        else none) ∧
    (insertPosition (runInsertions Window.initial l).1 p).1.base_position.length
      = base_position_length ∧
    ((∀ q ∈ l ++ [p], 0 < q.x ∧ 0 < q.y) →
      (insertPosition (runInsertions Window.initial l).1 p).2
        = some (insertPosition (runInsertions Window.initial l).1 p).1.base_position) := by
  have hN : base_position_length = 10 := rfl
  have hlen : (l ++ [p]).length = l.length + 1 := by simp
  have hw := window_after (l ++ [p])
  have hslot := hw.2.2 (base_position_length - 1) (by rw [hN]; omega)
  rw [if_neg (by rw [hlen, hN]; rw [hN] at hfull; omega)] at hslot
  have hidx : base_position_length - 1
        + base_position_length
          * (((l ++ [p]).length - 1 - (base_position_length - 1)) / base_position_length)
      = base_position_length * ((l.length + 1) / base_position_length) - 1 := by
    rw [hlen, hN]; rw [hN] at hfull; omega
  rw [hidx] at hslot
  have hmain := (circle_of_insert l p).2
  rw [hslot, ← (circle_of_insert l p).1] at hmain
  refine ⟨hmain, ?_, ?_⟩
  · rw [(circle_of_insert l p).1]
    exact hw.2.1
  · intro hpos
    rw [hmain, if_pos]
    have hlt : base_position_length * ((l.length + 1) / base_position_length) - 1
        < (l ++ [p]).length := by
      rw [hlen, hN]; rw [hN] at hfull; omega
    rw [List.getD_eq_getElem _ _ hlt]
    exact hpos _ (List.getElem_mem _)

/-- C10, amended, at a concrete input: the tenth insertion of `(1, 2)`. -/
theorem C10_circle_iff_last_slot_positive_witness :
    (insertPosition (runInsertions Window.initial (List.replicate 9 ⟨1, 2⟩)).1 ⟨1, 2⟩).2
      = some (insertPosition (runInsertions Window.initial (List.replicate 9 ⟨1, 2⟩)).1
          ⟨1, 2⟩).1.base_position :=
  (C10_circle_iff_last_slot_positive (List.replicate 9 ⟨1, 2⟩) ⟨1, 2⟩ (by decide)).2.2
    (by decide)

/-! ### The back-projection -/

/-- C11: with the identity rotation, zero translation and any depth `Zc`, the
back-projection maps the pixel `(u, v)` to
`(Zc * (u - m_px) / m_fx, Zc * (v - m_py) / m_fy, Zc)`; the pixel at the
principal point `(m_px, m_py)` is mapped to a point with `x = 0` and `y = 0`.
The same holds for the `cv::Point` that `processImage` passes, at its depth
`Zc = 2`.  The focal lengths are not zero. -/
theorem C11_back_projection_identity_pose (k : Intrinsics) (Zc u v : ℚ)
    (hfx : k.m_fx ≠ 0) (hfy : k.m_fy ≠ 0) :
    backProjectPixel k Matrix3d.identity ⟨0, 0, 0⟩ Zc u v
      = ⟨Zc * (u - k.m_px) / k.m_fx, Zc * (v - k.m_py) / k.m_fy, Zc⟩ ∧
    (backProjectPixel k Matrix3d.identity ⟨0, 0, 0⟩ Zc k.m_px k.m_py).x = 0 ∧
    (backProjectPixel k Matrix3d.identity ⟨0, 0, 0⟩ Zc k.m_px k.m_py).y = 0 ∧
    (∀ BaseCenter : Point, backProject k Matrix3d.identity ⟨0, 0, 0⟩ BaseCenter
      = ⟨2 * (BaseCenter.x - k.m_px) / k.m_fx, 2 * (BaseCenter.y - k.m_py) / k.m_fy, 2⟩) := by
  have hmain : ∀ z a b : ℚ, backProjectPixel k Matrix3d.identity ⟨0, 0, 0⟩ z a b
      = ⟨z * (a - k.m_px) / k.m_fx, z * (b - k.m_py) / k.m_fy, z⟩ := by
    intro z a b
    simp only [backProjectPixel, Matrix3d.identity, Matrix3d.inverse, Matrix3d.det,
      Matrix3d.transpose, Matrix3d.mulVec, Vector3d.scale, Vector3d.sub, Vector3d.mk.injEq]
    refine ⟨?_, ?_, ?_⟩ <;> field_simp <;> ring
  refine ⟨hmain Zc u v, ?_, ?_, ?_⟩
  · rw [hmain]; simp
  · rw [hmain]; simp
  · intro BaseCenter
    exact hmain 2 BaseCenter.x BaseCenter.y

/-- C11, at a concrete input: the camera of `Demo`, the depth 2 and the pixel
`(320, 240)`. -/
theorem C11_back_projection_identity_pose_witness :
    backProjectPixel Intrinsics.ofDemo Matrix3d.identity ⟨0, 0, 0⟩ 2 320 240
      = ⟨2 * (320 - Intrinsics.ofDemo.m_px) / Intrinsics.ofDemo.m_fx,
          2 * (240 - Intrinsics.ofDemo.m_py) / Intrinsics.ofDemo.m_fy, 2⟩ :=
  (C11_back_projection_identity_pose Intrinsics.ofDemo 2 320 240
    (by norm_num [Intrinsics.ofDemo]) (by norm_num [Intrinsics.ofDemo])).1

/-! ### The ring buffer -/

/-- After at least `base_position_length` insertions the buffer is the list
of the last `base_position_length` insertions, rotated so that the oldest of
them stands at the counter. -/
theorem window_is_rotation (l : List Point2f) (h : base_position_length ≤ l.length) :
    (runInsertions Window.initial l).1.base_position
      = (l.drop (l.length - base_position_length)).rotate
          ((base_position_length - l.length % base_position_length) % base_position_length) := by
  have hN : base_position_length = 10 := rfl
  obtain ⟨-, hlen, hslot⟩ := window_after l
  have hdrop : (l.drop (l.length - base_position_length)).length = base_position_length := by
    rw [List.length_drop]; rw [hN] at h ⊢; omega
  apply List.ext_getElem
  · rw [hlen, List.length_rotate, hdrop]
  · intro i h1 h2
    have hi : i < base_position_length := by rw [← hlen]; exact h1
    have hs := hslot i hi
    rw [List.getD_eq_getElem _ _ h1, if_neg (by rw [hN] at h hi; omega)] at hs
    have hidx : i + base_position_length * ((l.length - 1 - i) / base_position_length)
        < l.length := by
      rw [hN] at h hi ⊢; omega
    rw [List.getD_eq_getElem _ _ hidx] at hs
    rw [hs, List.getElem_rotate, List.getElem_drop]
    congr 1
    rw [hdrop]
    rw [hN] at h hi ⊢
    omega

/-- C12: for every sequence `l` of insertions from the initial window (ten
entries `(0, 0)`, counter 0) and every next position `p`: the buffer holds
`base_position_length` entries and the counter is below
`base_position_length`; the next insertion, number `l.length + 1`, writes
`p` to slot `l.length % base_position_length` and changes no other slot; and
once at least `base_position_length` positions have been inserted the buffer
holds exactly the last `base_position_length` of them, the slot at the
counter, which the next insertion overwrites, holding the oldest of them. -/
theorem C12_ring_buffer (l : List Point2f) (p : Point2f) :
    (runInsertions Window.initial l).1.base_position.length = base_position_length ∧
    (runInsertions Window.initial l).1.base_position_counter < base_position_length ∧
    (insertPosition (runInsertions Window.initial l).1 p).1.base_position
      = (runInsertions Window.initial l).1.base_position.set
          (l.length % base_position_length) p ∧
    (insertPosition (runInsertions Window.initial l).1 p).1.base_position.getD
        (l.length % base_position_length) ⟨0, 0⟩ = p ∧
    (∀ i, i ≠ l.length % base_position_length →
      (insertPosition (runInsertions Window.initial l).1 p).1.base_position.getD i ⟨0, 0⟩
        = (runInsertions Window.initial l).1.base_position.getD i ⟨0, 0⟩) ∧
    (base_position_length ≤ l.length →
      List.Perm (runInsertions Window.initial l).1.base_position
          (l.drop (l.length - base_position_length)) ∧
      (runInsertions Window.initial l).1.base_position.getD
          (l.length % base_position_length) ⟨0, 0⟩
        = l.getD (l.length - base_position_length) ⟨0, 0⟩) := by
  have hN : base_position_length = 10 := rfl
  obtain ⟨hc, hlen, hslot⟩ := window_after l
  have hmod : l.length % base_position_length < base_position_length :=
    Nat.mod_lt _ (by rw [hN]; omega)
  have hset : (insertPosition (runInsertions Window.initial l).1 p).1.base_position
      = (runInsertions Window.initial l).1.base_position.set
          (l.length % base_position_length) p := by
    simp only [insertPosition, hc]
  refine ⟨hlen, by rw [hc]; exact hmod, hset, ?_, ?_, ?_⟩
  · rw [hset, List.getD_eq_getElem?_getD, List.getElem?_set_self (by rw [hlen]; exact hmod)]
    rfl
  · intro i hi
    rw [hset, List.getD_eq_getElem?_getD, List.getElem?_set_ne (Ne.symm hi),
      ← List.getD_eq_getElem?_getD]
  · intro hfull
    constructor
    · rw [window_is_rotation l hfull]
      exact List.rotate_perm _ _
    · rw [hslot _ hmod, if_neg (by rw [hN] at hfull ⊢; omega)]
      congr 1
      rw [hN] at hfull ⊢
      omega

/-- C12, at a concrete input: after the twelve insertions `(1, 1)`, ...,
`(12, 12)` the buffer holds the last ten of them, and the slot at the counter
holds `(3, 3)`, the oldest of these. -/
theorem C12_ring_buffer_witness :
    List.Perm
        (runInsertions Window.initial
          ((List.range 12).map (fun n => (⟨n + 1, n + 1⟩ : Point2f)))).1.base_position
        (((List.range 12).map (fun n => (⟨n + 1, n + 1⟩ : Point2f))).drop 2) ∧
    (runInsertions Window.initial
        ((List.range 12).map (fun n => (⟨n + 1, n + 1⟩ : Point2f)))).1.base_position.getD 2
        ⟨0, 0⟩
      = ((List.range 12).map (fun n => (⟨n + 1, n + 1⟩ : Point2f))).getD 2 ⟨0, 0⟩ :=
  (C12_ring_buffer ((List.range 12).map (fun n => (⟨n + 1, n + 1⟩ : Point2f))) ⟨13, 13⟩).2.2.2.2.2
    (by decide)

end Bomber
